import Mathlib

/-!
Verification of the highlight-segment selection core of the `vistral1`
repository (`processor/video_trim.py` and `processor/summarize.py`).

The Python code is shallowly embedded: strings are Lean `String`s, Python
floats are modelled as exact rationals (`ℚ`), Python lists as Lean lists,
and the per-block `try/except` of the transcript parser as `Option`.
All string primitives used by the code (`split`, `replace`, `strip`,
`lower`, `in`) are re-implemented below by structural recursion so that
every definition evaluates inside the kernel.
-/

namespace Vistral

/-- Python whitespace characters for `str.strip()` / `str.split()`. -/
def isWs (c : Char) : Bool :=
  c == ' ' || c == '\t' || c == '\n' || c == '\r' || c == '\x0b' || c == '\x0c'

/-- Python `str.strip()` with no arguments: drop whitespace from both ends. -/
def pyStripWs (s : String) : String :=
  String.mk (((s.toList.dropWhile isWs).reverse.dropWhile isWs).reverse)

/-- Python `str.strip(chars)`: drop characters of `cs` from both ends. -/
def pyStrip (cs : List Char) (s : String) : String :=
  String.mk (((s.toList.dropWhile cs.contains).reverse.dropWhile cs.contains).reverse)

/-- Fuel-driven worker for `pySplit`: scan left to right, cutting at each
non-overlapping occurrence of the (non-empty) separator `sep`. -/
def splitAux (sep : List Char) : ℕ → List Char → List Char → List (List Char)
  | 0, rest, acc => [acc.reverse ++ rest]
  | _ + 1, [], acc => [acc.reverse]
  | n + 1, c :: rest, acc =>
    if sep.isPrefixOf (c :: rest) then
      acc.reverse :: splitAux sep n (List.drop (sep.length - 1) rest) []
    else
      splitAux sep n rest (c :: acc)

/-- Python `str.split(sep)` for a non-empty separator `sep`. -/
def pySplit (sep s : String) : List String :=
  (splitAux sep.toList (s.toList.length + 1) s.toList []).map String.mk

/-- Fuel-driven worker for `pyReplace`. -/
def replAux (pat rep : List Char) : ℕ → List Char → List Char
  | 0, rest => rest
  | _ + 1, [] => []
  | n + 1, c :: rest =>
    if pat.isPrefixOf (c :: rest) then
      rep ++ replAux pat rep n (List.drop (pat.length - 1) rest)
    else
      c :: replAux pat rep n rest

/-- Python `str.replace(pat, rep)` for a non-empty pattern: replace every
non-overlapping occurrence, scanning left to right. -/
def pyReplace (s pat rep : String) : String :=
  String.mk (replAux pat.toList rep.toList (s.toList.length + 1) s.toList)

/-- Python `needle in hay` substring test. -/
def pyContains (needle hay : String) : Bool :=
  if needle = "" then true else decide (1 < (pySplit needle hay).length)

/-- Worker for `pyWords`: split on whitespace runs, dropping empty pieces. -/
def wordsAux : List Char → List Char → List String
  | [], cur => if cur.isEmpty then [] else [String.mk cur.reverse]
  | c :: rest, cur =>
    if isWs c then
      if cur.isEmpty then wordsAux rest [] else String.mk cur.reverse :: wordsAux rest []
    else
      wordsAux rest (c :: cur)

/-- Python `str.split()` with no arguments: whitespace runs, no empties. -/
def pyWords (s : String) : List String := wordsAux s.toList []

/-- Python `' '.join`-style join with separator `sep`. -/
def joinSep (sep : String) : List String → String
  | [] => ""
  | x :: xs => xs.foldl (fun a b => a ++ sep ++ b) x

/-- ASCII lower-casing of one character, as Python `str.lower()` does on
the ASCII inputs this program handles. -/
def lowerChar (c : Char) : Char :=
  if 65 ≤ c.toNat ∧ c.toNat ≤ 90 then Char.ofNat (c.toNat + 32) else c

/-- Python `str.lower()` (ASCII). -/
def pyLower (s : String) : String := String.mk (s.toList.map lowerChar)

/-- ASCII upper-case test, as Python `str.isupper()` on one ASCII letter. -/
def isUpperChar (c : Char) : Bool := 65 ≤ c.toNat && c.toNat ≤ 90

/-- Python `len` of a string, in characters. -/
def strLen (s : String) : ℕ := s.toList.length

/-- Python `int(s)` conversion, modelled for an optional sign followed by
decimal digits, with surrounding whitespace allowed; `none` is the
`ValueError` case. -/
def pyInt (s : String) : Option ℤ :=
  let t := pyStripWs s
  let sd : ℤ × List Char :=
    match t.toList with
    | '-' :: rest => (-1, rest)
    | '+' :: rest => (1, rest)
    | l => (1, l)
  if sd.2 ≠ [] ∧ sd.2.all Char.isDigit then
    some (sd.1 * sd.2.foldl (fun n c => n * 10 + ((c.toNat : ℤ) - 48)) 0)
  else
    none

/-!  Data model (`video_trim.py`).  A parsed transcript block and a
highlight clip, both with exact rational times. -/

/-- One parsed transcript segment: `{'start': ..., 'content': ...}` as built
by `select_highlight_segments` in `video_trim.py`. -/
structure Seg where
  start : ℚ
  content : String
deriving DecidableEq

/-- One highlight clip: `{'start': ..., 'duration': ...}`, the output
artifact of `select_highlight_segments`. -/
structure Clip where
  start : ℚ
  duration : ℚ
deriving DecidableEq

/-- Python `minutes, seconds = map(int, time_part.split(':'))`: succeeds
exactly when the split has two pieces and both convert. -/
def pyIntPair (tp : String) : Option (ℤ × ℤ) :=
  match (pySplit ":" tp).map pyInt with
  | [some m, some s] => some (m, s)
  | _ => none

/-- The per-block parsing step of `select_highlight_segments`
(`video_trim.py` lines 158-186): a block is recognized only when its first
line contains `" - "` and the part before it is a colon-separated pair of
integers; the start time is `minutes*60 + seconds`, reduced by `0.5` when
greater than `0.5`; the inner `try/except: pass` is the `none` case. -/
def parseBlock (b : String) : Option Seg :=
  match pySplit "\n" b with
  | [] => none
  | header :: rest =>
    if 1 < (pySplit " - " header).length then
      let timePart := (pySplit " - " header).headD ""
      if 1 < (pySplit ":" timePart).length then
        match pyIntPair timePart with
        | some (m, s) =>
          let st0 : ℚ := (m : ℚ) * 60 + (s : ℚ)
          let st : ℚ := if 1 / 2 < st0 then st0 - 1 / 2 else st0
          some ⟨st, if 0 < rest.length then joinSep " " rest else ""⟩
        | none => none
      else none
    else none

/-- The transcript parser of `select_highlight_segments`: split the
stripped transcription on blank lines and keep the blocks that parse;
a block that fails is skipped, not fatal. -/
def parseTimestampSegments (transcription : String) : List Seg :=
  (pySplit "\n\n" (pyStripWs transcription)).filterMap parseBlock

/-!  Segment scorer (`video_trim.py` lines 193-227). -/

/-- The expanded keyword list `important_keywords` of
`select_highlight_segments`. -/
def importantKeywords : List String :=
  ["important", "key", "essential", "critical", "main", "significant",
   "highlight", "crucial", "vital", "primary", "central", "core",
   "demo", "example", "feature", "benefit", "result", "outcome",
   "solution", "problem", "challenge", "conclusion", "introduction",
   "summary", "overview", "tutorial", "guide", "walkthrough",
   "how to", "steps", "process", "method", "technique"]

/-- The score of segment number `i` out of `n` (`video_trim.py` lines
203-221): base `1.0`, `+1.0` when `i / max(1, n)` is below `0.15` or above
`0.85`, `+1.5` when the lowercased content contains a keyword, `+0.5` when
its word count exceeds `20`. -/
def segScore (n i : ℕ) (seg : Seg) : ℚ :=
  let content := pyLower seg.content
  let base : ℚ := 1
  let s1 :=
    if (i : ℚ) / ((max 1 n : ℕ) : ℚ) < 15 / 100 ∨
        85 / 100 < (i : ℚ) / ((max 1 n : ℕ) : ℚ) then base + 1 else base
  let s2 := if importantKeywords.any (fun k => pyContains k content) then s1 + 3 / 2 else s1
  let s3 := if 20 < (pyWords content).length then s2 + 1 / 2 else s2
  s3

/-- The scored segment list built by the loop at `video_trim.py` lines
203-227, pairing each parsed segment with its score. -/
def scoredOf (T : String) : List (Seg × ℚ) :=
  let segs := parseTimestampSegments T
  segs.enum.map (fun p => (p.2, segScore segs.length p.1 p.2))

/-!  Python `list.sort` is stable; it is modelled by a stable insertion
sort processing the list from the right. -/

/-- Insert `a` into `l` before the first element `b` with `le a b`. -/
def insertLe (le : α → α → Bool) (a : α) : List α → List α
  | [] => [a]
  | b :: l => if le a b then a :: b :: l else b :: insertLe le a l

/-- Stable sort by the boolean comparison `le`, as Python `list.sort` /
`sorted`: elements tied under `le` keep their original order. -/
def pySort (le : α → α → Bool) (l : List α) : List α := l.foldr (insertLe le) []

/-- `scored_segments.sort(key=lambda x: x['score'], reverse=True)`:
stable descending sort by score. -/
def rankedOf (T : String) : List (Seg × ℚ) :=
  pySort (fun a b => decide (b.2 ≤ a.2)) (scoredOf T)

/-- `top_segments = scored_segments[:min(3, len(scored_segments))]`. -/
def anchorsOf (T : String) : List (Seg × ℚ) :=
  (rankedOf T).take (min 3 (rankedOf T).length)

/-- The clips emitted for the anchor segments, 20 seconds each
(`video_trim.py` lines 239-249). -/
def anchorClipsOf (T : String) : List Clip :=
  (anchorsOf T).map (fun p => ⟨p.1.start, 20⟩)

/-- `remaining_segments = scored_segments[len(top_segments):]`. -/
def remainingOf (T : String) : List (Seg × ℚ) :=
  (rankedOf T).drop (anchorsOf T).length

/-- `remaining_segments.sort(key=lambda x: x['start'])`. -/
def remSortedOf (T : String) : List (Seg × ℚ) :=
  pySort (fun a b => decide (a.1.start ≤ b.1.start)) (remainingOf T)

/-- `step = max(1, len(remaining_segments) // 8)`. -/
def stepOf (T : String) : ℕ := max 1 ((remainingOf T).length / 8)

/-- Default element for modelling a Python list subscript whose index is
separately known to be in bounds. -/
def dfltScored : Seg × ℚ := (⟨0, ""⟩, 0)

/-- The candidates visited by `for i in range(0, len(remaining_segments),
step)`: the elements of the start-sorted remainder at indices divisible by
the stride. -/
def strideCandsOf (T : String) : List (Seg × ℚ) :=
  ((List.range (remSortedOf T).length).filter (fun i => i % stepOf T = 0)).map
    (fun i => (remSortedOf T).getD i dfltScored)

/-- `target_duration = min(duration * 0.4, 180)` (`video_trim.py` line 233). -/
def targetDuration (duration : ℚ) : ℚ := min (duration * (2 / 5)) 180

/-- The stride loop of `video_trim.py` lines 260-273: walk the candidates,
stopping (`break`) as soon as the accumulated duration has reached the
target, and emit a 20-second clip for each visited candidate. -/
def stridePick (target : ℚ) : ℚ → List (Seg × ℚ) → List Clip
  | _, [] => []
  | cur, p :: rest =>
    if target ≤ cur then [] else ⟨p.1.start, 20⟩ :: stridePick target (cur + 20) rest

/-- The clips added by the stride phase; the accumulator starts at the
20 seconds already spent on each anchor. -/
def strideClipsOf (D : ℚ) (T : String) : List Clip :=
  stridePick (targetDuration D) (20 * ((anchorsOf T).length : ℚ)) (strideCandsOf T)

/-- `current_duration` after the anchor and stride phases. -/
def afterStride (D : ℚ) (T : String) : ℚ :=
  20 * ((anchorsOf T).length : ℚ) + 20 * ((strideClipsOf D T).length : ℚ)

/-- The top-up pass of `video_trim.py` lines 276-288: when the target has
not been reached and candidates remain, add `min(3, len(remaining))` more
15-second clips at indices `(len // 2 + i) % len` of the sorted remainder. -/
def topupClipsOf (D : ℚ) (T : String) : List Clip :=
  let rem := remSortedOf T
  if afterStride D T < targetDuration D ∧ 0 < rem.length then
    (List.range (min 3 rem.length)).map
      (fun i => ⟨(rem.getD ((rem.length / 2 + i) % rem.length) dfltScored).1.start, 15⟩)
  else []

/-- `select_highlight_segments(duration, transcription)` (`video_trim.py`
lines 145-297): parse, score, rank, then emit anchor clips, stride clips
and top-up clips in that order; with no parseable segment the function
falls through to `return []`. -/
def select_highlight_segments (duration : ℚ) (transcription : String) : List Clip :=
  if (parseTimestampSegments transcription).isEmpty then []
  else
    anchorClipsOf transcription ++ strideClipsOf duration transcription ++
      topupClipsOf duration transcription

/-- Total duration of a clip list, `sum(clip['duration'] for clip in plan)`. -/
def sumDurations (l : List Clip) : ℚ := (l.map Clip.duration).sum

/-- The per-clip clamping loop of `trim_video` (`video_trim.py` lines
67-76): starts are clamped to `0`, durations to the remaining video, and
clips shorter than one second or starting past the end are skipped. -/
def materializeClips (videoDuration : ℚ) (clips : List Clip) : List Clip :=
  clips.filterMap (fun seg =>
    let start := max 0 seg.start
    let dur := min seg.duration (videoDuration - start)
    if dur < 1 ∨ videoDuration ≤ start then none else some ⟨start, dur⟩)

/-!  Exception-aware model of the selection body, for the error-handling
claim: the places where the Python inside the `try` block of
`select_highlight_segments` could raise (integer modulo by zero and list
subscripting in the top-up pass) are modelled explicitly; everything the
inner per-block `try/except: pass` already absorbs is part of
`parseBlock`. -/

/-- Sequence a fallible computation over a list, stopping at the first
error, as a Python `for` loop of fallible statements does. -/
def mapME (f : α → Except String β) : List α → Except String (List β)
  | [] => Except.ok []
  | a :: l =>
    match f a with
    | Except.error e => Except.error e
    | Except.ok b =>
      match mapME f l with
      | Except.error e => Except.error e
      | Except.ok bs => Except.ok (b :: bs)

/-- The top-up pass with its two hazard points made explicit:
`(len(remaining_segments) // 2 + i) % len(remaining_segments)` raises
`ZeroDivisionError` when the list is empty, and `remaining_segments[idx]`
raises `IndexError` when the index is out of range. -/
def topupClipsExc (D : ℚ) (T : String) : Except String (List Clip) :=
  let rem := remSortedOf T
  if afterStride D T < targetDuration D ∧ 0 < rem.length then
    mapME (fun i =>
      if rem.length = 0 then Except.error "integer division or modulo by zero"
      else
        let idx := (rem.length / 2 + i) % rem.length
        if h : idx < rem.length then Except.ok (⟨(rem.get ⟨idx, h⟩).1.start, 15⟩ : Clip)
        else Except.error "list index out of range")
      (List.range (min 3 rem.length))
  else Except.ok []

/-- The body of the outer `try` of `select_highlight_segments` as a
fallible computation; an `Except.error` here is an exception that the
outer `except` handler (which logs and returns `[]`) would have to catch. -/
def selectExc (D : ℚ) (T : String) : Except String (List Clip) :=
  if (parseTimestampSegments T).isEmpty then Except.ok []
  else
    match topupClipsExc D T with
    | Except.error e => Except.error e
    | Except.ok u => Except.ok (anchorClipsOf T ++ strideClipsOf D T ++ u)

/-!  The lexical analyzer of `summarize.py` (`process_transcript_segments`
and `analyze_content`), needed to settle the claim that topic/entity
phrases contribute to the selector's score. -/

/-- The filler-word list of `analyze_content` (`summarize.py` lines 93-95). -/
def fillerWords : List String :=
  ["um", "uh", "like", "you know", "so", "actually", "basically", "literally",
   "honestly", "now", "then", "well", "just", "okay", "right", "yeah",
   "mmm", "hmm", "ah", "oh", "er", "um", "uhh", "ahem"]

/-- The stop-word list of `analyze_content` (`summarize.py` lines 109-116). -/
def stopWords : List String :=
  ["this", "that", "these", "those", "with", "have", "from", "they", "will",
   "what", "when", "where", "their", "there", "here", "about", "which", "were",
   "would", "could", "should", "does", "doing", "because", "through", "some",
   "other", "more", "most", "such", "been", "being", "very", "much", "many",
   "your", "yours", "them", "then", "than", "that", "also", "over", "only",
   "into", "same", "even", "himself", "herself", "myself", "yourself", "itself"]

/-- A Python dict used as a counter, in insertion order: the association
list of keys with their counts, first occurrence first. -/
def countFreq (ws : List String) : List (String × ℕ) :=
  ws.foldl (fun acc w =>
    if acc.any (fun p => p.1 = w) then
      acc.map (fun p => if p.1 = w then (p.1, p.2 + 1) else p)
    else acc ++ [(w, 1)]) []

/-- The punctuation set stripped by the entity scan of `analyze_content`
(`.,;:!?"'()[]` and braces); character codes are used where a literal
would be awkward to quote. -/
def stripChars : List Char :=
  ['.', ',', ';', ':', '!', '?', Char.ofNat 34, Char.ofNat 39,
   '(', ')', '[', ']', Char.ofNat 123, Char.ofNat 125]

/-- The capitalized-run scan of `analyze_content` (`summarize.py` lines
177-194): words whose punctuation-stripped form is longer than one
character and starts with an upper-case letter extend the current phrase;
any other word flushes it. -/
def capPhrasesAux : List String → List String → List String
  | [], cur => if cur.isEmpty then [] else [joinSep " " cur.reverse]
  | w :: rest, cur =>
    let cw := pyStrip stripChars w
    if cw ≠ "" ∧ 1 < strLen cw ∧ isUpperChar (cw.toList.headD ' ') then
      capPhrasesAux rest (w :: cur)
    else if ¬ cur.isEmpty then joinSep " " cur.reverse :: capPhrasesAux rest []
    else capPhrasesAux rest []

/-- Replace the first kept entity that is a proper substring of `e` by `e`
(the inner `for ... break` of the dedup loop, `summarize.py` lines 222-226). -/
def replaceFirst (e : String) : List String → List String
  | [] => []
  | k :: rest =>
    if pyContains k e && ! (k == e) then e :: rest else k :: replaceFirst e rest

/-- One step of the entity dedup loop (`summarize.py` lines 218-228):
drop `e` when it is contained in a kept entity, else replace the first
kept entity contained in `e`, else append `e`. -/
def dedupInsert (final : List String) (e : String) : List String :=
  if final.any (fun o => pyContains e o && ! (e == o)) then final
  else if final.any (fun k => pyContains k e && ! (k == e)) then replaceFirst e final
  else final ++ [e]

/-- The lowercased, filler-stripped text of `analyze_content`. -/
def cleanTextOf (text : String) : String :=
  fillerWords.foldl (fun t w => pyReplace t (" " ++ w ++ " ") " ") (pyLower text)

/-- The filtered unigram list `words` of `analyze_content`: tokens of the
clean text longer than three characters. -/
def longWordsOf (text : String) : List String :=
  (pyWords (cleanTextOf text)).filter (fun w => 3 < strLen w)

/-- The unigram frequency table after stop-word deletion. -/
def wordFreqOf (text : String) : List (String × ℕ) :=
  (countFreq (longWordsOf text)).filter (fun p => ¬ stopWords.contains p.1)

/-- The bigram list of `analyze_content`: adjacent token pairs of the
clean text whose members pass the length and stop-word filters. -/
def bigramsOf (text : String) : List String :=
  let wordList := pyWords (cleanTextOf text)
  (wordList.zip (wordList.drop 1)).filterMap (fun p =>
    if 3 < strLen p.1 ∧ 3 < strLen p.2 ∧
        ¬ stopWords.contains p.1 ∧ ¬ stopWords.contains p.2 then
      some (p.1 ++ " " ++ p.2)
    else none)

/-- The trigram list of `analyze_content`. -/
def trigramsOf (text : String) : List String :=
  let wordList := pyWords (cleanTextOf text)
  ((wordList.zip (wordList.drop 1)).zip (wordList.drop 2)).filterMap (fun p =>
    if 3 < strLen p.1.1 ∧ 3 < strLen p.1.2 ∧ 3 < strLen p.2 ∧
        ¬ stopWords.contains p.1.1 ∧ ¬ stopWords.contains p.1.2 ∧
        ¬ stopWords.contains p.2 then
      some (p.1.1 ++ " " ++ p.1.2 ++ " " ++ p.2)
    else none)

/-- The topic list of `analyze_content` (`summarize.py` lines 155-173):
trigrams of frequency above 1 (top 2), then bigrams of frequency above 1
(top 3), then unigrams above the adaptive threshold (top 7), capped at 8. -/
def topicsOf (text : String) : List String :=
  let wordTopics :=
    (((pySort (fun a b => decide (b.2 ≤ a.2)) (wordFreqOf text)).filter
      (fun p => max 2 ((longWordsOf text).length / 200) < p.2)).map Prod.fst).take 7
  let bigramTopics :=
    (((pySort (fun a b => decide (b.2 ≤ a.2)) (countFreq (bigramsOf text))).filter
      (fun p => 1 < p.2)).map Prod.fst).take 3
  let trigramTopics :=
    (((pySort (fun a b => decide (b.2 ≤ a.2)) (countFreq (trigramsOf text))).filter
      (fun p => 1 < p.2)).map Prod.fst).take 2
  (trigramTopics ++ bigramTopics ++ wordTopics).take 8

/-- The entity list of `analyze_content` (`summarize.py` lines 175-230):
capitalized runs, counted, prioritized, deduplicated, capped at 6. -/
def entitiesOf (text : String) : List String :=
  let entityCount := countFreq ((capPhrasesAux (pyWords text) []).filterMap (fun ph =>
    let cp := pyStrip stripChars ph
    if cp ≠ "" then some cp else none))
  let prioritized := entityCount.map (fun p =>
    (p.1, (if 1 < (pyWords p.1).length then 2 else 0) + min 3 p.2))
  let entities8 := ((pySort (fun a b => decide (b.2 ≤ a.2)) prioritized).map Prod.fst).take 8
  (entities8.foldl dedupInsert []).take 6

/-- `analyze_content(text)` (`summarize.py` lines 84-230): topics from
unigram/bigram/trigram frequencies over the lowercased, filler-stripped
text, and entities from capitalized runs of the original text. -/
def analyze_content (text : String) : List String × List String :=
  (topicsOf text, entitiesOf text)

/-- The text accumulation of `process_transcript_segments` (`summarize.py`
lines 40-71): per block, the body joined with spaces (or the header when
the block is a single line), kept when non-empty. -/
def pyTextsOf (blocks : List String) : List String :=
  blocks.foldl (fun acc b =>
    match pySplit "\n" b with
    | [] => acc
    | header :: rest =>
      let text := if 0 < rest.length then joinSep " " rest else header
      if text ≠ "" then acc ++ [text] else acc) []

/-- `all_text` as built by `process_transcript_segments`: each kept text
preceded by one space. -/
def allTextOf (t : String) : String :=
  (pyTextsOf (pySplit "\n\n" (pyStripWs t))).foldl (fun a x => a ++ " " ++ x) ""

/-- The scoring formula asserted by the specification for the Segment
Scorer, stated in the spec's words for comparison with `segScore`: base
`1.0`, the positional bonus, `+1.5` when the lowercased text contains an
importance keyword or any topic/entity phrase, `+0.5` for more than 20
words. -/
def specLexicalScore (topics entities : List String) (n i : ℕ) (seg : Seg) : ℚ :=
  let content := pyLower seg.content
  1 + (if (i : ℚ) / ((max 1 n : ℕ) : ℚ) < 15 / 100 ∨
          85 / 100 < (i : ℚ) / ((max 1 n : ℕ) : ℚ) then 1 else 0)
    + (if importantKeywords.any (fun k => pyContains k content) ∨
          (topics ++ entities).any (fun t => pyContains t content) then 3 / 2 else 0)
    + (if 20 < (pyWords content).length then 1 / 2 else 0)

/-!  Concrete transcripts used as test inputs for the claims. -/

/-- Two blocks: an early greeting and a later segment containing the
keyword `important`. -/
def exA : String := "00:00 - A:\nhello\n\n01:00 - B:\nimportant"

/-- One block whose timestamp (55s) lies inside a 60-second timeline. -/
def exB : String := "00:55 - A:\nhi"

/-- Three keyword-free blocks at 0, 10 and 20 seconds. -/
def exC : String := "00:00 - A:\na\n\n00:10 - B:\nb\n\n00:20 - C:\nc"

/-- A transcript with no parseable header. -/
def exD : String := "no timestamps here"

/-- Three blocks whose middle segment repeats a content word often enough
to make it a topic of the lexical analyzer, while containing no importance
keyword. -/
def exE : String :=
  "00:00 - A:\nhello there\n\n00:30 - B:\nelephants elephants elephants\n\n01:00 - C:\ngoodbye everyone"

/-!  Helper lemmas. -/

theorem mem_insertLe {le : α → α → Bool} {x a : α} :
    ∀ {l : List α}, a ∈ insertLe le x l ↔ a = x ∨ a ∈ l := by
  intro l
  induction l with
  | nil => simp [insertLe]
  | cons b l ih =>
    by_cases h : le x b
    · simp [insertLe, h]
    · simp only [insertLe, if_neg h, List.mem_cons, ih]
      tauto

theorem pairwise_insertLe {le : α → α → Bool}
    (htrans : ∀ a b c, le a b = true → le b c = true → le a c = true)
    (htot : ∀ a b, le a b = true ∨ le b a = true) (x : α) :
    ∀ {l : List α}, l.Pairwise (fun a b => le a b = true) →
      (insertLe le x l).Pairwise (fun a b => le a b = true) := by
  intro l
  induction l with
  | nil => simp [insertLe]
  | cons b l ih =>
    intro h
    rw [List.pairwise_cons] at h
    by_cases hxb : le x b
    · rw [insertLe, if_pos hxb, List.pairwise_cons]
      refine ⟨?_, List.pairwise_cons.mpr h⟩
      intro c hc
      rcases List.mem_cons.mp hc with rfl | hcl
      · exact hxb
      · exact htrans x b c hxb (h.1 c hcl)
    · rw [insertLe, if_neg hxb, List.pairwise_cons]
      refine ⟨?_, ih h.2⟩
      intro c hc
      rcases mem_insertLe.mp hc with rfl | hcl
      · rcases htot c b with hx | hb
        · exact absurd hx hxb
        · exact hb
      · exact h.1 c hcl

theorem pairwise_pySort {le : α → α → Bool}
    (htrans : ∀ a b c, le a b = true → le b c = true → le a c = true)
    (htot : ∀ a b, le a b = true ∨ le b a = true) :
    ∀ (l : List α), (pySort le l).Pairwise (fun a b => le a b = true) := by
  intro l
  induction l with
  | nil => simp [pySort]
  | cons a l ih => exact pairwise_insertLe htrans htot a ih

theorem length_insertLe (le : α → α → Bool) (x : α) :
    ∀ (l : List α), (insertLe le x l).length = l.length + 1 := by
  intro l
  induction l with
  | nil => simp [insertLe]
  | cons b l ih =>
    by_cases h : le x b <;> simp [insertLe, h, ih]

theorem length_pySort (le : α → α → Bool) :
    ∀ (l : List α), (pySort le l).length = l.length := by
  intro l
  induction l with
  | nil => rfl
  | cons a l ih =>
    show (insertLe le a (pySort le l)).length = l.length + 1
    rw [length_insertLe, ih]

theorem stridePick_nil_of_le {t cur : ℚ} (h : t ≤ cur) :
    ∀ (l : List (Seg × ℚ)), stridePick t cur l = [] := by
  intro l
  cases l with
  | nil => rfl
  | cons p rest => rw [stridePick, if_pos h]

theorem mem_stridePick {t : ℚ} {c : Clip} :
    ∀ {l : List (Seg × ℚ)} {cur : ℚ}, c ∈ stridePick t cur l → c.duration = 20 := by
  intro l
  induction l with
  | nil => intro cur h; simp [stridePick] at h
  | cons p rest ih =>
    intro cur h
    rw [stridePick] at h
    by_cases hc : t ≤ cur
    · rw [if_pos hc] at h; simp at h
    · rw [if_neg hc] at h
      rcases List.mem_cons.mp h with rfl | h2
      · rfl
      · exact ih h2

theorem stridePick_starts_sublist {t : ℚ} :
    ∀ (l : List (Seg × ℚ)) (cur : ℚ),
      ((stridePick t cur l).map Clip.start).Sublist (l.map (fun p => p.1.start)) := by
  intro l
  induction l with
  | nil => intro cur; simp [stridePick]
  | cons p rest ih =>
    intro cur
    rw [stridePick]
    by_cases hc : t ≤ cur
    · rw [if_pos hc]; exact List.nil_sublist _
    · rw [if_neg hc, List.map_cons, List.map_cons]
      exact List.Sublist.cons₂ _ (ih (cur + 20))

theorem sumDurations_nil : sumDurations [] = 0 := rfl

theorem sumDurations_cons (c : Clip) (l : List Clip) :
    sumDurations (c :: l) = c.duration + sumDurations l := by
  simp [sumDurations]

theorem sumDurations_append (l₁ l₂ : List Clip) :
    sumDurations (l₁ ++ l₂) = sumDurations l₁ + sumDurations l₂ := by
  simp [sumDurations]

theorem sumDurations_map_const {α : Type} (f : α → ℚ) (d : ℚ) (l : List α) :
    sumDurations (l.map (fun x => (⟨f x, d⟩ : Clip))) = d * l.length := by
  induction l with
  | nil => simp [sumDurations]
  | cons a l ih =>
    rw [List.map_cons, sumDurations_cons, ih, List.length_cons]
    push_cast
    ring

theorem sumDurations_stridePick {t : ℚ} :
    ∀ (l : List (Seg × ℚ)) (cur : ℚ),
      sumDurations (stridePick t cur l) = 20 * ((stridePick t cur l).length : ℚ) := by
  intro l
  induction l with
  | nil => intro cur; simp [stridePick, sumDurations]
  | cons p rest ih =>
    intro cur
    rw [stridePick]
    by_cases hc : t ≤ cur
    · rw [if_pos hc]; simp [sumDurations]
    · rw [if_neg hc, sumDurations_cons, ih (cur + 20), List.length_cons]
      push_cast
      ring

theorem stridePick_sum {t : ℚ} :
    ∀ (l : List (Seg × ℚ)) (cur : ℚ),
      cur + sumDurations (stridePick t cur l) ≤ max cur (t + 20) := by
  intro l
  induction l with
  | nil => intro cur; simp [stridePick, sumDurations]
  | cons p rest ih =>
    intro cur
    rw [stridePick]
    by_cases hc : t ≤ cur
    · rw [if_pos hc]; simp [sumDurations]
    · rw [if_neg hc, sumDurations_cons]
      have h1 := ih (cur + 20)
      have h2 : max (cur + 20) (t + 20) = t + 20 := by
        rw [max_eq_right]
        linarith [not_le.mp hc]
      rw [h2] at h1
      calc cur + ((⟨p.1.start, 20⟩ : Clip).duration + sumDurations (stridePick t (cur + 20) rest))
          = cur + 20 + sumDurations (stridePick t (cur + 20) rest) := by ring
        _ ≤ t + 20 := h1
        _ ≤ max cur (t + 20) := le_max_right _ _

theorem rankedOf_length (T : String) :
    (rankedOf T).length = (parseTimestampSegments T).length := by
  rw [rankedOf, length_pySort, scoredOf, List.length_map, List.enum_length]

theorem anchorsOf_length (T : String) :
    (anchorsOf T).length = min 3 (parseTimestampSegments T).length := by
  rw [anchorsOf, List.length_take, rankedOf_length]
  exact min_eq_left (min_le_right _ _)

theorem anchorsOf_length_le (T : String) : (anchorsOf T).length ≤ 3 := by
  rw [anchorsOf_length]
  exact min_le_left _ _

theorem components_nil {T : String} (h : parseTimestampSegments T = []) :
    rankedOf T = [] ∧ anchorClipsOf T = [] ∧ remSortedOf T = [] ∧
      (∀ D : ℚ, strideClipsOf D T = []) ∧ (∀ D : ℚ, topupClipsOf D T = []) := by
  have hr : rankedOf T = [] := by
    rw [rankedOf, scoredOf, h]
    rfl
  have ha : anchorsOf T = [] := by
    rw [anchorsOf, hr]
    rfl
  have hrem : remSortedOf T = [] := by
    rw [remSortedOf, remainingOf, hr, List.drop_nil]
    rfl
  have hcand : strideCandsOf T = [] := by
    rw [strideCandsOf, hrem]
    rfl
  have hs : ∀ D : ℚ, strideClipsOf D T = [] := by
    intro D
    rw [strideClipsOf, hcand]
    rfl
  have hu : ∀ D : ℚ, topupClipsOf D T = [] := by
    intro D
    rw [topupClipsOf]
    simp [hrem]
  exact ⟨hr, by rw [anchorClipsOf, ha]; rfl, hrem, hs, hu⟩

theorem remSortedOf_pairwise (T : String) :
    (remSortedOf T).Pairwise (fun a b : Seg × ℚ => a.1.start ≤ b.1.start) := by
  have h := @pairwise_pySort (Seg × ℚ) (fun a b => decide (a.1.start ≤ b.1.start))
    (fun a b c hab hbc => by
      simp only [decide_eq_true_eq] at hab hbc ⊢
      exact le_trans hab hbc)
    (fun a b => by
      simp only [decide_eq_true_eq]
      exact le_total _ _)
    (remainingOf T)
  rw [remSortedOf]
  exact h.imp (fun hab => of_decide_eq_true hab)

theorem strideCands_pairwise (T : String) :
    (strideCandsOf T).Pairwise (fun a b : Seg × ℚ => a.1.start ≤ b.1.start) := by
  rw [strideCandsOf]
  rw [List.pairwise_map]
  have hfilter : ((List.range (remSortedOf T).length).filter
      (fun i => i % stepOf T = 0)).Pairwise (· < ·) :=
    (List.pairwise_lt_range _).filter _
  refine hfilter.imp_of_mem ?_
  intro i j hi hj hij
  have hi' : i < (remSortedOf T).length :=
    List.mem_range.mp (List.mem_of_mem_filter hi)
  have hj' : j < (remSortedOf T).length :=
    List.mem_range.mp (List.mem_of_mem_filter hj)
  rw [List.getD_eq_getElem _ _ hi', List.getD_eq_getElem _ _ hj']
  exact List.pairwise_iff_getElem.mp (remSortedOf_pairwise T) i j hi' hj' hij

theorem sumDurations_anchorClips (T : String) :
    sumDurations (anchorClipsOf T) = 20 * ((anchorsOf T).length : ℚ) := by
  rw [anchorClipsOf]
  rw [sumDurations_map_const (fun p : Seg × ℚ => p.1.start) 20]

theorem mapME_ok {α β : Type} {f : α → Except String β} {g : α → β} :
    ∀ {l : List α}, (∀ a ∈ l, f a = Except.ok (g a)) →
      mapME f l = Except.ok (l.map g) := by
  intro l
  induction l with
  | nil => intro _; rfl
  | cons a l ih =>
    intro h
    rw [mapME, h a (List.mem_cons_self a l), ih (fun b hb => h b (List.mem_cons_of_mem a hb))]
    rfl

/-!  Claim theorems. -/

/-- C1 (counterexample): the plan returned by the selector is not sorted
chronologically: on a two-segment transcript whose higher-scored segment
comes later, the clip at 59.5s precedes the clip at 0s. -/
theorem C1_counterexample :
    select_highlight_segments 120 exA = [⟨119/2, 20⟩, ⟨0, 20⟩] ∧
      ¬ List.Sorted (· ≤ ·) ((select_highlight_segments 120 exA).map Clip.start) := by
  with_unfolding_all decide

/-- C1 (amended): the selector never re-sorts the final list; the plan is
the anchor clips (in score order) followed by the stride-phase clips
followed by the top-up clips, and only the stride-phase portion is
guaranteed to be sorted by start. -/
theorem C1_amended (D : ℚ) (T : String) :
    select_highlight_segments D T =
      anchorClipsOf T ++ strideClipsOf D T ++ topupClipsOf D T ∧
      List.Sorted (· ≤ ·) ((strideClipsOf D T).map Clip.start) := by
  constructor
  · rw [select_highlight_segments]
    split
    case isTrue h =>
      obtain ⟨_, ha, _, hs, hu⟩ := components_nil (List.isEmpty_iff.mp h)
      rw [ha, hs D, hu D]
      rfl
    case isFalse h => rfl
  · have hsorted : ((strideCandsOf T).map (fun p : Seg × ℚ => p.1.start)).Pairwise (· ≤ ·) :=
      List.pairwise_map.mpr (strideCands_pairwise T)
    have hsub := stridePick_starts_sublist (t := targetDuration D) (strideCandsOf T)
      (20 * ((anchorsOf T).length : ℚ))
    rw [strideClipsOf]
    exact List.Pairwise.sublist hsub hsorted

/-- C2 (counterexample): the selector does not clamp clip end times: with
source duration 60 and a parsed timestamp of 55s (inside the timeline),
the returned clip ends at 74.5s, past the end of the source. -/
theorem C2_counterexample :
    select_highlight_segments 60 exB = [⟨109/2, 20⟩] ∧ (109/2 : ℚ) ≤ 60 ∧
      ¬ ((109/2 : ℚ) + 20 ≤ 60) := by
  with_unfolding_all decide

/-- C2 (amended): the clamping happens in the caller `trim_video`, not in
the selector: every clip surviving the materialization loop has a
non-negative start, a duration of at least one second, and an end time
within the source duration. -/
theorem C2_amended (V : ℚ) (clips : List Clip) (c : Clip)
    (hc : c ∈ materializeClips V clips) :
    0 ≤ c.start ∧ 1 ≤ c.duration ∧ c.start + c.duration ≤ V := by
  rw [materializeClips, List.mem_filterMap] at hc
  obtain ⟨a, _, ha⟩ := hc
  dsimp only at ha
  split at ha
  · exact absurd ha (by simp)
  case isFalse hcond =>
    push_neg at hcond
    obtain ⟨h1, h2⟩ := hcond
    obtain rfl := Option.some_injective _ ha
    refine ⟨le_max_left 0 a.start, h1, ?_⟩
    dsimp only
    have hmin : min a.duration (V - max 0 a.start) ≤ V - max 0 a.start := min_le_right _ _
    linarith

/-- C2 (witness): the amended clamping invariant at a concrete input. -/
theorem C2_witness :
    0 ≤ (⟨109/2, 20⟩ : Clip).start ∧ 1 ≤ (⟨109/2, 20⟩ : Clip).duration ∧
      (⟨109/2, 20⟩ : Clip).start + (⟨109/2, 20⟩ : Clip).duration ≤ 100 :=
  C2_amended 100 [⟨109/2, 20⟩] ⟨109/2, 20⟩ (by with_unfolding_all decide)

/-- C3 (counterexample): the duration bound fails: on a three-segment
transcript with source duration 25 the target is 10 seconds, yet the three
anchor clips alone already amount to 60 seconds, more than the target plus
the 45-second top-up margin. -/
theorem C3_counterexample :
    sumDurations (select_highlight_segments 25 exC) = 60 ∧ targetDuration 25 = 10 ∧
      ¬ (sumDurations (select_highlight_segments 25 exC) ≤ targetDuration 25 + 45) := by
  with_unfolding_all decide

/-- C3 (amended): the anchor clips are selected without consulting the
target, so the correct bound is `max 60 (target + 45)`: at most three
20-second anchors, stride clips added only while the accumulated duration
is below the target, and a top-up pass of at most three 15-second clips. -/
theorem C3_amended (D : ℚ) (T : String) :
    sumDurations (select_highlight_segments D T) ≤ max 60 (targetDuration D + 45) := by
  rw [select_highlight_segments]
  split
  · rw [sumDurations_nil]
    exact le_max_of_le_left (by norm_num)
  · rw [sumDurations_append, sumDurations_append]
    have hS : sumDurations (strideClipsOf D T) = 20 * ((strideClipsOf D T).length : ℚ) := by
      rw [strideClipsOf]
      exact sumDurations_stridePick _ _
    have hA3 : (20 : ℚ) * ((anchorsOf T).length : ℚ) ≤ 60 := by
      have h1 := anchorsOf_length_le T
      have h2 : ((anchorsOf T).length : ℚ) ≤ 3 := by exact_mod_cast h1
      linarith
    have hAS : 20 * ((anchorsOf T).length : ℚ) + sumDurations (strideClipsOf D T) ≤
        max 60 (targetDuration D + 20) := by
      have h1 := stridePick_sum (t := targetDuration D) (strideCandsOf T)
        (20 * ((anchorsOf T).length : ℚ))
      rw [← strideClipsOf] at h1
      exact le_trans h1 (max_le_max hA3 le_rfl)
    rw [sumDurations_anchorClips]
    simp only [topupClipsOf]
    split
    case isTrue hcond =>
      have hU : sumDurations ((List.range (min 3 (remSortedOf T).length)).map
          (fun i => (⟨((remSortedOf T).getD
            (((remSortedOf T).length / 2 + i) % (remSortedOf T).length) dfltScored).1.start,
            15⟩ : Clip))) ≤ 45 := by
        rw [sumDurations_map_const
          (fun i => ((remSortedOf T).getD
            (((remSortedOf T).length / 2 + i) % (remSortedOf T).length) dfltScored).1.start) 15]
        have h1 : (List.range (min 3 (remSortedOf T).length)).length ≤ 3 := by
          rw [List.length_range]
          exact min_le_left _ _
        have h2 : ((List.range (min 3 (remSortedOf T).length)).length : ℚ) ≤ 3 := by
          exact_mod_cast h1
        linarith
      have hafter : afterStride D T < targetDuration D := hcond.1
      rw [afterStride] at hafter
      refine le_max_of_le_right ?_
      linarith [hS]
    case isFalse =>
      rw [sumDurations_nil]
      have : max 60 (targetDuration D + 20) ≤ max 60 (targetDuration D + 45) :=
        max_le_max le_rfl (by linarith)
      linarith

/-- C6: on a transcript with no parseable segment the selector returns the
empty plan for every positive duration; in the embedding the function is
total, so no error is raised. -/
theorem C6_theorem (D : ℚ) (T : String) (_hD : 0 < D)
    (h : parseTimestampSegments T = []) :
    select_highlight_segments D T = [] := by
  rw [select_highlight_segments, if_pos (by rw [h]; rfl)]

/-- C6 (witness): the empty-input law at duration 5 on an unparseable
transcript. -/
theorem C6_witness :
    0 < (5 : ℚ) ∧ parseTimestampSegments exD = [] ∧
      select_highlight_segments 5 exD = [] :=
  ⟨by norm_num, by decide, C6_theorem 5 exD (by norm_num) (by decide)⟩

/-- C7 (counterexample): the selector does not reject a non-positive
duration: called with duration 0 on a two-segment transcript it returns
two ordinary anchor clips computed from the degenerate duration. -/
theorem C7_counterexample :
    select_highlight_segments 0 exA = [⟨119/2, 20⟩, ⟨0, 20⟩] ∧
      select_highlight_segments 0 exA ≠ [] := by
  with_unfolding_all decide

/-- C7 (amended): the selector performs no duration validation: for any
non-positive duration and any transcript with at least one parsed segment,
the target duration is non-positive, stride and top-up contribute nothing,
and the selector still returns the non-empty anchor clip list. -/
theorem C7_amended (D : ℚ) (T : String) (hD : D ≤ 0)
    (h : parseTimestampSegments T ≠ []) :
    select_highlight_segments D T = anchorClipsOf T ∧ anchorClipsOf T ≠ [] := by
  have hn : 0 < (parseTimestampSegments T).length := List.length_pos.mpr h
  have halen : 0 < (anchorsOf T).length := by
    rw [anchorsOf_length]
    exact lt_min (by norm_num) hn
  have htarget : targetDuration D ≤ 0 := by
    rw [targetDuration]
    have h1 : D * (2 / 5) ≤ 0 * (2 / 5) := mul_le_mul_of_nonneg_right hD (by norm_num)
    have h2 : D * (2 / 5) ≤ 0 := by linarith
    exact le_trans (min_le_left _ _) h2
  have hcur : targetDuration D ≤ 20 * ((anchorsOf T).length : ℚ) := by
    have h1 : (0 : ℚ) < ((anchorsOf T).length : ℚ) := by exact_mod_cast halen
    linarith
  have hs : strideClipsOf D T = [] := by
    rw [strideClipsOf]
    exact stridePick_nil_of_le hcur _
  have hu : topupClipsOf D T = [] := by
    simp only [topupClipsOf]
    rw [if_neg]
    intro hcontra
    have h1 := hcontra.1
    rw [afterStride, hs] at h1
    simp only [List.length_nil] at h1
    push_cast at h1
    linarith
  refine ⟨?_, ?_⟩
  · rw [select_highlight_segments, if_neg (by simp [h]), hs, hu,
      List.append_nil, List.append_nil]
  · have h1 : 0 < (anchorClipsOf T).length := by
      rw [anchorClipsOf, List.length_map]
      exact halen
    exact List.ne_nil_of_length_pos h1

/-- C7 (witness): the amended statement at duration 0. -/
theorem C7_witness :
    select_highlight_segments 0 exA = anchorClipsOf exA ∧ anchorClipsOf exA ≠ [] :=
  C7_amended 0 exA le_rfl (by with_unfolding_all decide)

/-- C8: the selector is deterministic: two runs on equal inputs return
equal plans; the embedding is a pure function and the Python path uses no
randomness. -/
theorem C8_theorem (D₁ : ℚ) (T₁ : String) (D₂ : ℚ) (T₂ : String)
    (hD : D₁ = D₂) (hT : T₁ = T₂) :
    select_highlight_segments D₁ T₁ = select_highlight_segments D₂ T₂ := by
  rw [hD, hT]

/-- C8 (witness): determinism instantiated at a concrete input. -/
theorem C8_witness :
    select_highlight_segments 120 exA = select_highlight_segments 120 exA :=
  C8_theorem 120 exA 120 exA rfl rfl

/-- C10: every clip in a returned plan lasts exactly 20 seconds (anchor
and stride clips) or exactly 15 seconds (top-up clips), hence has positive
duration, independent of the source duration. -/
theorem C10_theorem (D : ℚ) (T : String) (c : Clip)
    (hc : c ∈ select_highlight_segments D T) :
    (c.duration = 20 ∨ c.duration = 15) ∧ 0 < c.duration := by
  rw [select_highlight_segments] at hc
  split at hc
  · simp at hc
  · rcases List.mem_append.mp hc with h1 | h2
    · rcases List.mem_append.mp h1 with ha | hs
      · rw [anchorClipsOf] at ha
        obtain ⟨p, _, rfl⟩ := List.mem_map.mp ha
        exact ⟨Or.inl rfl, by norm_num⟩
      · rw [strideClipsOf] at hs
        have h20 := mem_stridePick hs
        exact ⟨Or.inl h20, by rw [h20]; norm_num⟩
    · simp only [topupClipsOf] at h2
      split at h2
      · obtain ⟨i, _, rfl⟩ := List.mem_map.mp h2
        exact ⟨Or.inr rfl, by norm_num⟩
      · simp at h2

/-- C4 (counterexample): the parser does not recognize a bare `"<time>"`
header (the block is skipped entirely), and for a recognized header the
stored start time is `minutes*60 + seconds` minus the 0.5-second lead-in,
not the raw value: `"01:00"` yields 59.5, not 60. -/
theorem C4_counterexample :
    parseTimestampSegments "00:45\nhello" = [] ∧
      (parseTimestampSegments "01:00 - B:\nx").map Seg.start = [119/2] ∧
      (119/2 : ℚ) ≠ 1 * 60 + 0 := by
  with_unfolding_all decide

/-- C4 (amended): the selector's parser recognizes only the
`"<time> - <speaker>:"` form: a block whose first line has no `" - "`
separator is skipped (`parseBlock` returns `none`), and every parsed
segment's start time comes from a colon-separated pair of integers
`(m, s)` as `m*60 + s`, reduced by `0.5` when that value exceeds `0.5`;
skipping is per-block, so a bad block never fails the whole parse. -/
theorem C4_amended :
    (∀ b : String,
        (pySplit " - " ((pySplit "\n" b).headD "")).length ≤ 1 → parseBlock b = none) ∧
    (∀ (b : String) (seg : Seg), parseBlock b = some seg →
        ∃ m s : ℤ,
          pyIntPair ((pySplit " - " ((pySplit "\n" b).headD "")).headD "") = some (m, s) ∧
          seg.start = (if 1 / 2 < (m : ℚ) * 60 + (s : ℚ)
            then (m : ℚ) * 60 + (s : ℚ) - 1 / 2 else (m : ℚ) * 60 + (s : ℚ))) := by
  constructor
  · intro b hb
    rw [parseBlock.eq_def]
    cases hsplit : pySplit "\n" b with
    | nil => rfl
    | cons header rest =>
      rw [hsplit] at hb
      rw [List.headD_cons] at hb
      exact if_neg (not_lt.mpr hb)
  · intro b seg h
    rw [parseBlock.eq_def] at h
    cases hsplit : pySplit "\n" b with
    | nil => rw [hsplit] at h; exact absurd h (by simp)
    | cons header rest =>
      rw [hsplit] at h
      dsimp only at h
      by_cases h1 : 1 < (pySplit " - " header).length
      · rw [if_pos h1] at h
        by_cases h2 : 1 < (pySplit ":" ((pySplit " - " header).headD "")).length
        · rw [if_pos h2] at h
          cases hpair : pyIntPair ((pySplit " - " header).headD "") with
          | none => rw [hpair] at h; exact absurd h (by simp)
          | some ms =>
            obtain ⟨m, s⟩ := ms
            rw [hpair] at h
            dsimp only at h
            obtain rfl := (Option.some_injective _ h).symm
            refine ⟨m, s, ?_, rfl⟩
            rw [List.headD_cons]
            exact hpair
        · rw [if_neg h2] at h; exact absurd h (by simp)
      · rw [if_neg h1] at h; exact absurd h (by simp)

/-- C4 (witness): the amended parser characterization at concrete blocks:
`"00:45"` alone is skipped, and `"01:00 - B:"` parses with start time
`1*60 + 0 - 0.5`. -/
theorem C4_witness :
    parseBlock "00:45\nhello" = none ∧
      (∃ m s : ℤ,
        pyIntPair ((pySplit " - " ((pySplit "\n" "01:00 - B:\nx").headD "")).headD "") =
          some (m, s) ∧
        (Seg.mk (119/2) "x").start = (if 1 / 2 < (m : ℚ) * 60 + (s : ℚ)
          then (m : ℚ) * 60 + (s : ℚ) - 1 / 2 else (m : ℚ) * 60 + (s : ℚ))) :=
  ⟨C4_amended.1 "00:45\nhello" (by decide),
   C4_amended.2 "01:00 - B:\nx" ⟨119/2, "x"⟩ (by with_unfolding_all decide)⟩

set_option maxRecDepth 100000 in
/-- C5 (counterexample): topic/entity phrases do not contribute to the
selector's score: in `exE` the analyzer extracts the topic `elephants`
from the transcript text, the middle segment contains it and no importance
keyword, so the spec's formula gives 2.5, but the code scores it 1.0. -/
theorem C5_counterexample :
    (scoredOf exE).get? 1 = some (⟨59/2, "elephants elephants elephants"⟩, 1) ∧
      specLexicalScore (analyze_content (allTextOf exE)).1
        (analyze_content (allTextOf exE)).2
        (parseTimestampSegments exE).length 1
        ⟨59/2, "elephants elephants elephants"⟩ = 5/2 ∧
      (1 : ℚ) ≠ 5/2 := by
  with_unfolding_all decide

/-- C5 (amended): the score of segment `i` is exactly the additive formula
base `1.0`, plus `1.0` for the first/last 15% by index ratio, plus `1.5`
exactly when the lowercased text contains a keyword of the fixed list
(topic/entity phrases play no role), plus `0.5` for more than 20 words. -/
theorem C5_amended (T : String) (i : ℕ) (seg : Seg) (sc : ℚ)
    (h : (scoredOf T).get? i = some (seg, sc)) :
    sc = 1 +
      (if (i : ℚ) / ((max 1 (parseTimestampSegments T).length : ℕ) : ℚ) < 15 / 100 ∨
          85 / 100 < (i : ℚ) / ((max 1 (parseTimestampSegments T).length : ℕ) : ℚ)
        then 1 else 0) +
      (if importantKeywords.any (fun k => pyContains k (pyLower seg.content))
        then 3 / 2 else 0) +
      (if 20 < (pyWords (pyLower seg.content)).length then 1 / 2 else 0) := by
  rw [scoredOf] at h
  rw [List.get?_eq_getElem?, List.getElem?_map, List.getElem?_enum] at h
  cases hx : (parseTimestampSegments T)[i]? with
  | none => rw [hx] at h; exact absurd h (by simp)
  | some a =>
    rw [hx] at h
    simp only [Option.map_some'] at h
    obtain ⟨rfl, rfl⟩ : a = seg ∧ segScore (parseTimestampSegments T).length i a = sc := by
      have h2 := Option.some_injective _ h
      exact ⟨congrArg Prod.fst h2, congrArg Prod.snd h2⟩
    simp only [segScore]
    split_ifs <;> ring

set_option maxRecDepth 100000 in
/-- C5 (witness): the amended scoring formula evaluated on the middle
segment of `exE`, whose score is the bare baseline 1.0. -/
theorem C5_witness :
    (1 : ℚ) = 1 +
      (if ((1 : ℕ) : ℚ) / ((max 1 (parseTimestampSegments exE).length : ℕ) : ℚ) < 15 / 100 ∨
          85 / 100 < ((1 : ℕ) : ℚ) / ((max 1 (parseTimestampSegments exE).length : ℕ) : ℚ)
        then 1 else 0) +
      (if importantKeywords.any (fun k => pyContains k
          (pyLower (Seg.mk (59/2) "elephants elephants elephants").content))
        then 3 / 2 else 0) +
      (if 20 < (pyWords (pyLower (Seg.mk (59/2) "elephants elephants elephants").content)).length
        then 1 / 2 else 0) :=
  C5_amended exE 1 ⟨59/2, "elephants elephants elephants"⟩ 1
    (by with_unfolding_all decide)

/-- C9: no failure escapes the selection body: the exception-aware model
of the `try` block of `select_highlight_segments`, with the modulo and
subscript hazards of the top-up pass made explicit, returns `Except.ok` of
the pure result on every input, so the outer handler (which would return
`[]`) is never reached and the host process is never terminated. -/
theorem C9_theorem (D : ℚ) (T : String) :
    selectExc D T = Except.ok (select_highlight_segments D T) := by
  have htopup : topupClipsExc D T = Except.ok (topupClipsOf D T) := by
    simp only [topupClipsExc, topupClipsOf]
    split
    case isTrue hcond =>
      have hlen : 0 < (remSortedOf T).length := hcond.2
      rw [mapME_ok (g := fun i =>
        (⟨((remSortedOf T).getD
          (((remSortedOf T).length / 2 + i) % (remSortedOf T).length) dfltScored).1.start,
          15⟩ : Clip))]
      intro i _
      rw [if_neg (Nat.pos_iff_ne_zero.mp hlen)]
      have hidx : ((remSortedOf T).length / 2 + i) % (remSortedOf T).length <
          (remSortedOf T).length := Nat.mod_lt _ hlen
      rw [dif_pos hidx]
      have hget : (remSortedOf T).get
          ⟨((remSortedOf T).length / 2 + i) % (remSortedOf T).length, hidx⟩ =
          (remSortedOf T).getD
            (((remSortedOf T).length / 2 + i) % (remSortedOf T).length) dfltScored := by
        rw [List.getD_eq_getElem _ _ hidx, List.get_eq_getElem]
      rw [hget]
    case isFalse => rfl
  by_cases hE : (parseTimestampSegments T).isEmpty
  · rw [selectExc, select_highlight_segments, if_pos hE, if_pos hE]
  · rw [selectExc, select_highlight_segments, if_neg hE, if_neg hE, htopup]

/-- C10 (witness): with a 10-second source (shorter than one clip) the
selector still emits a 20-second clip, and its duration is positive. -/
theorem C10_witness :
    ((⟨0, 20⟩ : Clip) ∈ select_highlight_segments 10 exC) ∧
      (((⟨0, 20⟩ : Clip).duration = 20 ∨ (⟨0, 20⟩ : Clip).duration = 15) ∧
        0 < (⟨0, 20⟩ : Clip).duration) :=
  ⟨by with_unfolding_all decide,
   C10_theorem 10 exC ⟨0, 20⟩ (by with_unfolding_all decide)⟩

/-!  Evaluation checks: the embedding run on concrete transcripts, traced
against the Python by hand; they exercise the parser, the anchor phase,
the stride phase with its early break, and the top-up pass. -/

/-- Evaluation check: parsing recognizes the `" - "` form only, applies
the 0.5-second lead-in, and skips bad blocks. -/
theorem eval_parse_check :
    parseTimestampSegments "00:00 - A:\nhello\n\n01:00 - B:\nimportant" =
      [⟨0, "hello"⟩, ⟨119/2, "important"⟩] ∧
    pySplit ":" "00:45" = ["00", "45"] ∧
    pyInt "-5" = some (-5) ∧ pyInt "1.5" = none := by
  with_unfolding_all decide

/-- Evaluation check: with six segments and a 160-second source the stride
phase adds one clip (at 29.5s) and then breaks on reaching the 64-second
target. -/
theorem eval_stride_check :
    select_highlight_segments 160
      "00:00 - A:\na\n\n00:10 - B:\nb\n\n00:20 - C:\nc\n\n00:30 - D:\nd\n\n00:40 - E:\ne\n\n00:50 - F:\nf" =
      [⟨0, 20⟩, ⟨19/2, 20⟩, ⟨39/2, 20⟩, ⟨59/2, 20⟩] := by
  with_unfolding_all decide

/-- Evaluation check: with four segments and a large target the stride
phase exhausts its single candidate and the top-up pass adds one more
15-second clip at the same start. -/
theorem eval_topup_check :
    select_highlight_segments 400
      "00:00 - A:\na\n\n00:10 - B:\nb\n\n00:20 - C:\nc\n\n00:30 - D:\nd" =
      [⟨0, 20⟩, ⟨19/2, 20⟩, ⟨39/2, 20⟩, ⟨59/2, 20⟩, ⟨59/2, 15⟩] := by
  with_unfolding_all decide

set_option maxRecDepth 100000 in
/-- Evaluation check: the analyzer on a text with capitalized runs:
repeated long words become topics only above the threshold, the repeated
bigram survives, and capitalized runs become entities. -/
theorem eval_analyze_check :
    analyze_content " John Smith spoke and John Smith left The Staff cheered" =
      (["john smith"], ["John Smith", "The Staff"]) := by
  with_unfolding_all decide

end Vistral
